import Mathlib

/-!
Verification of the mental-health-tracker core (src/backend.py, src/frontend.py).

Shallow embedding conventions:
* Python `int` values are `Int`; response vectors are `List Int` (Python's
  `isinstance(x, int)` check is absorbed into the element type).
* Functions that `raise ValueError` return `Except String _` carrying the
  message from the source.
* The SQLite store is a pair of tables, each a list of rows plus the last
  AUTOINCREMENT rowid; `datetime.now()` becomes an explicit parameter.
* Timestamps are byte strings (lists of ASCII codes), so that SQLite's
  `ORDER BY timestamp DESC` (binary collation on TEXT) is lexicographic
  comparison of those codes.
-/

namespace MentalHealth

/-- backend.py `calculate_burns_score`: length check, per-item 0..4 check,
then the plain sum. -/
def calculate_burns_score (responses : List Int) : Except String Int :=
  if responses.length ≠ 25 then
    Except.error "Must provide exactly 25 responses"
  else if responses.all (fun x => 0 ≤ x && x ≤ 4) then
    Except.ok responses.sum
  else
    Except.error "All responses must be integers between 0 and 4"

/-- backend.py `get_depression_level`: the if/elif band chain. -/
def get_depression_level (score : Int) : String :=
  if 0 ≤ score ∧ score ≤ 5 then "No Depression"
  else if 6 ≤ score ∧ score ≤ 10 then "Normal but unhappy"
  else if 11 ≤ score ∧ score ≤ 25 then "Mild depression"
  else if 26 ≤ score ∧ score ≤ 50 then "Moderate depression"
  else if 51 ≤ score ∧ score ≤ 75 then "Severe depression"
  else if 76 ≤ score ∧ score ≤ 100 then "Extreme depression"
  else "Invalid score"

/-- backend.py `calculate_gad7_score`. -/
def calculate_gad7_score (responses : List Int) : Except String Int :=
  if responses.length ≠ 7 then
    Except.error "Must provide exactly 7 responses"
  else if responses.all (fun x => 0 ≤ x && x ≤ 3) then
    Except.ok responses.sum
  else
    Except.error "All responses must be integers between 0 and 3"

/-- backend.py `get_anxiety_level`. -/
def get_anxiety_level (score : Int) : String :=
  if 0 ≤ score ∧ score ≤ 4 then "Minimal anxiety"
  else if 5 ≤ score ∧ score ≤ 9 then "Mild anxiety"
  else if 10 ≤ score ∧ score ≤ 14 then "Moderate anxiety"
  else if 15 ≤ score ∧ score ≤ 21 then "Severe anxiety"
  else "Invalid score"

/-- The depression threshold table, as data: the constants of the
`get_depression_level` branch chain, in source order. -/
def depressionBands : List (Int × Int × String) :=
  [(0, 5, "No Depression"), (6, 10, "Normal but unhappy"),
   (11, 25, "Mild depression"), (26, 50, "Moderate depression"),
   (51, 75, "Severe depression"), (76, 100, "Extreme depression")]

/-- The anxiety threshold table, as data: the constants of the
`get_anxiety_level` branch chain, in source order. -/
def anxietyBands : List (Int × Int × String) :=
  [(0, 4, "Minimal anxiety"), (5, 9, "Mild anxiety"),
   (10, 14, "Moderate anxiety"), (15, 21, "Severe anxiety")]

/-- A band `(lo, hi, label)` contains `s` when `lo ≤ s ≤ hi` (inclusive). -/
def bandContains (b : Int × Int × String) (s : Int) : Bool :=
  b.1 ≤ s && s ≤ b.2.1

/-- Burns sample vector from the demonstration path of backend.py. -/
def sample_burns_responses : List Int :=
  [2, 1, 0, 2, 1, 3, 2, 1, 0, 2, 1, 0, 2, 1, 3,
   2, 1, 0, 2, 1, 0, 2, 1, 0, 0]

/-- A wall-clock time at second resolution, the fields of a Python
`datetime` that `strftime('%Y-%m-%d %H:%M:%S')` renders. -/
structure DateTime where
  year : Nat
  month : Nat
  day : Nat
  hour : Nat
  minute : Nat
  second : Nat
deriving DecidableEq

/-- The field bounds Python's `datetime` guarantees by construction
(MINYEAR = 1, MAXYEAR = 9999). -/
def validDT (d : DateTime) : Prop :=
  1 ≤ d.year ∧ d.year ≤ 9999 ∧ 1 ≤ d.month ∧ d.month ≤ 12 ∧
  1 ≤ d.day ∧ d.day ≤ 31 ∧ d.hour ≤ 23 ∧ d.minute ≤ 59 ∧ d.second ≤ 59

/-- Positional key: on valid datetimes its numeric order is the
field-lexicographic (chronological) order Python uses to compare
`datetime` values. -/
def dtKey (d : DateTime) : Nat :=
  ((((d.year * 100 + d.month) * 100 + d.day) * 100 + d.hour) * 100 +
    d.minute) * 100 + d.second

/-- Chronological comparison of datetimes. -/
def dtCmp (a b : DateTime) : Ordering :=
  compare (dtKey a) (dtKey b)

/-- Chronological `<=`, Python's `datetime.__le__` on valid datetimes. -/
def dtLe (a b : DateTime) : Prop :=
  dtKey a ≤ dtKey b

instance : DecidableRel dtLe := fun a b =>
  inferInstanceAs (Decidable (dtKey a ≤ dtKey b))

/-- `datetime.min`: 0001-01-01 00:00:00. -/
def datetime_min : DateTime := ⟨1, 1, 1, 0, 0, 0⟩

/-- The `w` decimal digits of `n` (zero-padded, most significant first);
exact when `n < 10^w`. -/
def padDigits : Nat → Nat → List Nat
  | 0, _ => []
  | w + 1, n => n / 10 ^ w :: padDigits w (n % 10 ^ w)

/-- ASCII codes of the zero-padded `w`-digit rendering of `n`. -/
def digitsCodes (w n : Nat) : List Nat :=
  (padDigits w n).map (· + 48)

/-- `strftime('%Y-%m-%d %H:%M:%S')` as a byte string: 45 = '-', 32 = ' ',
58 = ':'. -/
def fmt (d : DateTime) : List Nat :=
  digitsCodes 4 d.year ++ (45 :: (digitsCodes 2 d.month ++ (45 ::
    (digitsCodes 2 d.day ++ (32 :: (digitsCodes 2 d.hour ++ (58 ::
      (digitsCodes 2 d.minute ++ (58 :: digitsCodes 2 d.second)))))))))

/-- Byte-wise lexicographic comparison: SQLite's BINARY collation on TEXT
values, which `ORDER BY timestamp` uses. -/
def lexCmp : List Nat → List Nat → Ordering
  | [], [] => Ordering.eq
  | [], _ :: _ => Ordering.lt
  | _ :: _, [] => Ordering.gt
  | a :: as, b :: bs => (compare a b).then (lexCmp as bs)

/-- Read exactly `w` ASCII digits, extending the accumulator; the digit
part of `strptime`'s fixed-width fields. -/
def readDigits : Nat → Nat → List Nat → Option (Nat × List Nat)
  | 0, acc, cs => some (acc, cs)
  | w + 1, acc, c :: cs =>
      if 48 ≤ c ∧ c ≤ 57 then readDigits w (acc * 10 + (c - 48)) cs else none
  | _ + 1, _, [] => none

/-- Require a literal byte, as `strptime` does for the separators. -/
def expectCode (c : Nat) : List Nat → Option (List Nat)
  | c' :: cs => if c' = c then some cs else none
  | [] => none

/-- `datetime.strptime(s, '%Y-%m-%d %H:%M:%S')` on the fixed-width strings
this program stores: four digits, '-', two digits, '-', two digits, ' ',
two digits, ':', two digits, ':', two digits, end of string. -/
def parseTS (cs : List Nat) : Option DateTime := do
  let (y, r) ← readDigits 4 0 cs
  let r ← expectCode 45 r
  let (mo, r) ← readDigits 2 0 r
  let r ← expectCode 45 r
  let (dd, r) ← readDigits 2 0 r
  let r ← expectCode 32 r
  let (h, r) ← readDigits 2 0 r
  let r ← expectCode 58 r
  let (mi, r) ← readDigits 2 0 r
  let r ← expectCode 58 r
  let (s, r) ← readDigits 2 0 r
  match r with
  | [] => some ⟨y, mo, dd, h, mi, s⟩
  | _ => none

/-- A row of `checklist_entries` or `gad7_entries`: SELECT * yields
(id, score, level, timestamp) in this order. -/
structure Entry where
  id : Nat
  score : Int
  level : String
  timestamp : List Nat
deriving DecidableEq

/-- One SQLite table: the rows plus the last AUTOINCREMENT rowid ever
assigned (AUTOINCREMENT never reuses ids, even of deleted rows). -/
structure Table where
  seq : Nat
  rows : List Entry

/-- The database file mental_health_checklist.db after `init_db`: the two
instrument tables. -/
def DB := Table × Table

/-- The `checklist_entries` table. -/
def DB.checklist (db : DB) : Table := db.1

/-- The `gad7_entries` table. -/
def DB.gad7 (db : DB) : Table := db.2

/-- backend.py `save_score`: recompute the level from the score, stamp
`now` formatted at second resolution, append the row, return its id. -/
def save_score (db : DB) (now : DateTime) (score : Int) : DB × Nat :=
  let e : Entry :=
    { id := db.checklist.seq + 1, score := score,
      level := get_depression_level score, timestamp := fmt now }
  ((⟨db.checklist.seq + 1, db.checklist.rows ++ [e]⟩, db.gad7),
    db.checklist.seq + 1)

/-- backend.py `save_gad7_score`. -/
def save_gad7_score (db : DB) (now : DateTime) (score : Int) : DB × Nat :=
  let e : Entry :=
    { id := db.gad7.seq + 1, score := score,
      level := get_anxiety_level score, timestamp := fmt now }
  ((db.checklist, ⟨db.gad7.seq + 1, db.gad7.rows ++ [e]⟩),
    db.gad7.seq + 1)

/-- `ORDER BY timestamp DESC`: `a` may precede `b` when `a.timestamp` is
not lexicographically below `b.timestamp` (BINARY collation). -/
def tsGe (a b : Entry) : Prop :=
  lexCmp a.timestamp b.timestamp ≠ Ordering.lt

instance : DecidableRel tsGe := fun a b =>
  inferInstanceAs (Decidable (lexCmp a.timestamp b.timestamp ≠ Ordering.lt))

/-- backend.py `get_all_entries`: all checklist rows, ordered by timestamp
descending. -/
def get_all_entries (db : DB) : List Entry :=
  List.insertionSort tsGe db.checklist.rows

/-- backend.py `get_all_gad7_entries`. -/
def get_all_gad7_entries (db : DB) : List Entry :=
  List.insertionSort tsGe db.gad7.rows

/-- frontend.py `calculate_burns_result`: score the responses, then (only
if scoring did not raise) save; returns the new database and the total. -/
def calculate_burns_result (db : DB) (now : DateTime) (scores : List Int) :
    Except String (DB × Int) :=
  match calculate_burns_score scores with
  | Except.error m => Except.error m
  | Except.ok total => Except.ok ((save_score db now total).1, total)

/-- frontend.py `calculate_gad7_result`. -/
def calculate_gad7_result (db : DB) (now : DateTime) (scores : List Int) :
    Except String (DB × Int) :=
  match calculate_gad7_score scores with
  | Except.error m => Except.error m
  | Except.ok total => Except.ok ((save_gad7_score db now total).1, total)

/-- frontend.py `update_graph`, lines 242-245: the list comprehension that
parses each entry's timestamp and keeps `(score, parsed)` when
`start_date <= parsed <= now`; an unparseable timestamp makes the whole
update raise (`none`). -/
def update_graph_filter :
    List Entry → DateTime → DateTime → Option (List (Int × DateTime))
  | [], _, _ => some []
  | e :: es, start_date, now =>
    match parseTS e.timestamp with
    | none => none
    | some d =>
      match update_graph_filter es start_date now with
      | none => none
      | some rest =>
        some (if dtLe start_date d ∧ dtLe d now then (e.score, d) :: rest
              else rest)

/-- Modelled from the spec's words for the refinement claim C6: `apply`
"retains only entries whose timestamp satisfies start <= timestamp <= end
(inclusive both ends); ordering of output matches input ordering". -/
def applySpec (entries : List (Int × DateTime)) (start_date end_date : DateTime) :
    List (Int × DateTime) :=
  entries.filter (fun p => decide (dtLe start_date p.2 ∧ dtLe p.2 end_date))

/-- An entry's parsed timestamp (`datetime.min` when unparseable); used
only to state which datetimes the filter pairs with each entry. -/
def parseD (e : Entry) : DateTime :=
  (parseTS e.timestamp).getD datetime_min

/-- The key of an entry's parsed timestamp (0 when unparseable); used only
to state chronological ordering of listings. -/
def parsedKey (e : Entry) : Nat :=
  match parseTS e.timestamp with
  | some d => dtKey d
  | none => 0

/-- C1: on a vector of exactly 25 integers each in [0,4],
`calculate_burns_score` returns the exact sum, which lies in [0,100];
on a vector of exactly 7 integers each in [0,3], `calculate_gad7_score`
returns the exact sum, which lies in [0,21]. (Both are pure Lean
functions, hence deterministic and side-effect free.) -/
theorem scorers_exact_sum_and_range (rb rg : List Int)
    (hb_len : rb.length = 25) (hb_rng : ∀ x ∈ rb, 0 ≤ x ∧ x ≤ 4)
    (hg_len : rg.length = 7) (hg_rng : ∀ x ∈ rg, 0 ≤ x ∧ x ≤ 3) :
    (calculate_burns_score rb = Except.ok rb.sum ∧ 0 ≤ rb.sum ∧ rb.sum ≤ 100) ∧
    (calculate_gad7_score rg = Except.ok rg.sum ∧ 0 ≤ rg.sum ∧ rg.sum ≤ 21) := by
  constructor
  · have hall : rb.all (fun x => decide (0 ≤ x) && decide (x ≤ 4)) = true := by
      rw [List.all_eq_true]
      intro x hx
      simpa using hb_rng x hx
    refine ⟨?_, List.sum_nonneg (fun x hx => (hb_rng x hx).1), ?_⟩
    · simp [calculate_burns_score, hb_len, hall]
    · have := List.sum_le_card_nsmul rb 4 (fun x hx => (hb_rng x hx).2)
      rw [hb_len] at this
      simpa using this
  · have hall : rg.all (fun x => decide (0 ≤ x) && decide (x ≤ 3)) = true := by
      rw [List.all_eq_true]
      intro x hx
      simpa using hg_rng x hx
    refine ⟨?_, List.sum_nonneg (fun x hx => (hg_rng x hx).1), ?_⟩
    · simp [calculate_gad7_score, hg_len, hall]
    · have := List.sum_le_card_nsmul rg 3 (fun x hx => (hg_rng x hx).2)
      rw [hg_len] at this
      simpa using this

/-- C1 witness: the two scorers on concrete valid vectors. -/
theorem scorers_exact_sum_and_range_witness :
    (calculate_burns_score (List.replicate 25 4) = Except.ok ((List.replicate 25 (4 : Int)).sum) ∧
      0 ≤ (List.replicate 25 (4 : Int)).sum ∧ (List.replicate 25 (4 : Int)).sum ≤ 100) ∧
    (calculate_gad7_score (List.replicate 7 3) = Except.ok ((List.replicate 7 (3 : Int)).sum) ∧
      0 ≤ (List.replicate 7 (3 : Int)).sum ∧ (List.replicate 7 (3 : Int)).sum ≤ 21) :=
  scorers_exact_sum_and_range (List.replicate 25 4) (List.replicate 7 3)
    (by decide)
    (by intro x hx; rw [List.eq_of_mem_replicate hx]; exact ⟨by norm_num, le_refl 4⟩)
    (by decide)
    (by intro x hx; rw [List.eq_of_mem_replicate hx]; exact ⟨by norm_num, le_refl 3⟩)

/-- C2: `get_depression_level` returns the label of the band of the table
containing the score; on [0,100] exactly one band of the table contains
each score (no gaps, no overlaps); and the specific boundary values 5 and 6
yield "No Depression" and "Normal but unhappy". -/
theorem get_depression_level_bands (s : Int) :
    (∀ b ∈ depressionBands, bandContains b s = true → get_depression_level s = b.2.2) ∧
    (0 ≤ s → s ≤ 100 → depressionBands.countP (fun b => bandContains b s) = 1) ∧
    get_depression_level 5 = "No Depression" ∧
    get_depression_level 6 = "Normal but unhappy" := by
  refine ⟨?_, ?_, by decide, by decide⟩
  · intro b hb
    fin_cases hb <;>
      (intro hc
       simp only [bandContains, Bool.and_eq_true, decide_eq_true_eq] at hc
       unfold get_depression_level
       split_ifs <;> first | rfl | omega)
  · intro h1 h2
    interval_cases s <;> decide

/-- C2 witness: band lookup, uniqueness count and both boundary labels at
score 5. -/
theorem get_depression_level_bands_witness :
    get_depression_level 5 = "No Depression" ∧
    depressionBands.countP (fun b => bandContains b 5) = 1 := by
  have h := get_depression_level_bands 5
  exact ⟨h.2.2.1, h.2.1 (by norm_num) (by norm_num)⟩

/-- C3: `get_anxiety_level` returns the label of the band of the table
containing the score; on [0,21] exactly one band contains each score; and
for any score outside the instrument range both classifiers return the
sentinel "Invalid score" (total, no exception). -/
theorem get_anxiety_level_bands (s : Int) :
    (∀ b ∈ anxietyBands, bandContains b s = true → get_anxiety_level s = b.2.2) ∧
    (0 ≤ s → s ≤ 21 → anxietyBands.countP (fun b => bandContains b s) = 1) ∧
    (s < 0 ∨ 21 < s → get_anxiety_level s = "Invalid score") ∧
    (s < 0 ∨ 100 < s → get_depression_level s = "Invalid score") := by
  refine ⟨?_, ?_, ?_, ?_⟩
  · intro b hb
    fin_cases hb <;>
      (intro hc
       simp only [bandContains, Bool.and_eq_true, decide_eq_true_eq] at hc
       unfold get_anxiety_level
       split_ifs <;> first | rfl | omega)
  · intro h1 h2
    interval_cases s <;> decide
  · intro h
    unfold get_anxiety_level
    split_ifs <;> first | rfl | omega
  · intro h
    unfold get_depression_level
    split_ifs <;> first | rfl | omega

/-- C3 witness: band lookup at 10, uniqueness count, and the sentinel for
the out-of-range scores 22 (anxiety) and -1 (depression). -/
theorem get_anxiety_level_bands_witness :
    get_anxiety_level 10 = "Moderate anxiety" ∧
    anxietyBands.countP (fun b => bandContains b 10) = 1 ∧
    get_anxiety_level 22 = "Invalid score" ∧
    get_depression_level (-1) = "Invalid score" := by
  have h10 := get_anxiety_level_bands 10
  have h22 := get_anxiety_level_bands 22
  have hm1 := get_anxiety_level_bands (-1)
  refine ⟨?_, h10.2.1 (by norm_num) (by norm_num),
    h22.2.2.1 (Or.inr (by norm_num)), hm1.2.2.2 (Or.inl (by norm_num))⟩
  exact h10.1 (10, 14, "Moderate anxiety") (by decide) (by decide)

/-- C4: the scorers fail exactly when the vector has the wrong length or
an out-of-range element, and on failure the submission path returns the
error without reaching the save call, so nothing is persisted. -/
theorem validation_iff_and_blocks_persistence (rb rg : List Int) (db : DB)
    (now : DateTime) :
    ((∃ m, calculate_burns_score rb = Except.error m) ↔
      (rb.length ≠ 25 ∨ ∃ x ∈ rb, x < 0 ∨ 4 < x)) ∧
    ((∃ m, calculate_gad7_score rg = Except.error m) ↔
      (rg.length ≠ 7 ∨ ∃ x ∈ rg, x < 0 ∨ 3 < x)) ∧
    (∀ m, calculate_burns_score rb = Except.error m →
      calculate_burns_result db now rb = Except.error m) ∧
    (∀ m, calculate_gad7_score rg = Except.error m →
      calculate_gad7_result db now rg = Except.error m) := by
  refine ⟨?_, ?_, ?_, ?_⟩
  · by_cases hlen : rb.length = 25
    · by_cases hall : rb.all (fun x => decide (0 ≤ x) && decide (x ≤ 4)) = true
      · have hok : calculate_burns_score rb = Except.ok rb.sum := by
          simp [calculate_burns_score, hlen, hall]
        rw [List.all_eq_true] at hall
        simp only [hok]
        constructor
        · rintro ⟨m, hm⟩
          exact absurd hm (by simp)
        · rintro (h | ⟨x, hx, hxr⟩)
          · exact absurd hlen h
          · have := hall x hx
            simp only [Bool.and_eq_true, decide_eq_true_eq] at this
            omega
      · have herr : calculate_burns_score rb =
            Except.error "All responses must be integers between 0 and 4" := by
          simp [calculate_burns_score, hlen, hall]
        rw [List.all_eq_true] at hall
        push_neg at hall
        obtain ⟨x, hx, hxr⟩ := hall
        have hxr2 : ¬(0 ≤ x ∧ x ≤ 4) := by
          intro hc
          simp [hc.1, hc.2] at hxr
        exact ⟨fun _ => Or.inr ⟨x, hx, by omega⟩, fun _ => ⟨_, herr⟩⟩
    · have herr : calculate_burns_score rb =
          Except.error "Must provide exactly 25 responses" := by
        simp [calculate_burns_score, hlen]
      exact ⟨fun _ => Or.inl hlen, fun _ => ⟨_, herr⟩⟩
  · by_cases hlen : rg.length = 7
    · by_cases hall : rg.all (fun x => decide (0 ≤ x) && decide (x ≤ 3)) = true
      · have hok : calculate_gad7_score rg = Except.ok rg.sum := by
          simp [calculate_gad7_score, hlen, hall]
        rw [List.all_eq_true] at hall
        simp only [hok]
        constructor
        · rintro ⟨m, hm⟩
          exact absurd hm (by simp)
        · rintro (h | ⟨x, hx, hxr⟩)
          · exact absurd hlen h
          · have := hall x hx
            simp only [Bool.and_eq_true, decide_eq_true_eq] at this
            omega
      · have herr : calculate_gad7_score rg =
            Except.error "All responses must be integers between 0 and 3" := by
          simp [calculate_gad7_score, hlen, hall]
        rw [List.all_eq_true] at hall
        push_neg at hall
        obtain ⟨x, hx, hxr⟩ := hall
        have hxr2 : ¬(0 ≤ x ∧ x ≤ 3) := by
          intro hc
          simp [hc.1, hc.2] at hxr
        exact ⟨fun _ => Or.inr ⟨x, hx, by omega⟩, fun _ => ⟨_, herr⟩⟩
    · have herr : calculate_gad7_score rg =
          Except.error "Must provide exactly 7 responses" := by
        simp [calculate_gad7_score, hlen]
      exact ⟨fun _ => Or.inl hlen, fun _ => ⟨_, herr⟩⟩
  · intro m hm
    simp [calculate_burns_result, hm]
  · intro m hm
    simp [calculate_gad7_result, hm]

/-- C4 witness: the empty vector fails both scorers and blocks the save on
a concrete database. -/
theorem validation_iff_and_blocks_persistence_witness :
    ((([] : List Int).length ≠ 25 ∨ ∃ x ∈ ([] : List Int), x < 0 ∨ 4 < x) ∧
     (([] : List Int).length ≠ 7 ∨ ∃ x ∈ ([] : List Int), x < 0 ∨ 3 < x)) ∧
    calculate_burns_result (⟨0, []⟩, ⟨0, []⟩) ⟨2024, 1, 1, 0, 0, 0⟩ [] =
      Except.error "Must provide exactly 25 responses" ∧
    calculate_gad7_result (⟨0, []⟩, ⟨0, []⟩) ⟨2024, 1, 1, 0, 0, 0⟩ [] =
      Except.error "Must provide exactly 7 responses" := by
  have h := validation_iff_and_blocks_persistence [] []
    ((⟨0, []⟩, ⟨0, []⟩) : DB) ⟨2024, 1, 1, 0, 0, 0⟩
  refine ⟨⟨h.1.mp ⟨_, by rfl⟩, h.2.1.mp ⟨_, by rfl⟩⟩, ?_, ?_⟩
  · exact h.2.2.1 _ (by rfl)
  · exact h.2.2.2 _ (by rfl)

/-- C5 counterexample: the demonstration vector does NOT score 28 — the
code returns the sum 30. -/
theorem sample_burns_score_not_28 :
    calculate_burns_score sample_burns_responses ≠ Except.ok 28 := by
  have h30 : calculate_burns_score sample_burns_responses = Except.ok 30 := by rfl
  rw [h30]
  simp

/-- C5 (amended): the demonstration vector scores 30, and classifying 30
yields "Moderate depression". -/
theorem sample_burns_score_amended :
    calculate_burns_score sample_burns_responses = Except.ok 30 ∧
    get_depression_level 30 = "Moderate depression" :=
  ⟨by rfl, by decide⟩

/-- C8: saving then immediately listing yields exactly one new record (the
listing after the save is a permutation of the new record consed onto the
prior listing), the returned id is the fresh identifier, the new record's
score is the saved score and its category is the classifier's output, and
the fresh identifier is strictly greater than every prior identifier; both
for the checklist table and the GAD-7 table. -/
theorem save_then_list_roundtrip (db : DB) (now : DateTime) (sb sg : Int)
    (hb : ∀ e ∈ db.checklist.rows, e.id ≤ db.checklist.seq)
    (hg : ∀ e ∈ db.gad7.rows, e.id ≤ db.gad7.seq) :
    (List.Perm (get_all_entries (save_score db now sb).1)
      ({ id := db.checklist.seq + 1, score := sb,
         level := get_depression_level sb, timestamp := fmt now } ::
        get_all_entries db) ∧
     (save_score db now sb).2 = db.checklist.seq + 1 ∧
     ∀ e ∈ get_all_entries db, e.id < (save_score db now sb).2) ∧
    (List.Perm (get_all_gad7_entries (save_gad7_score db now sg).1)
      ({ id := db.gad7.seq + 1, score := sg,
         level := get_anxiety_level sg, timestamp := fmt now } ::
        get_all_gad7_entries db) ∧
     (save_gad7_score db now sg).2 = db.gad7.seq + 1 ∧
     ∀ e ∈ get_all_gad7_entries db, e.id < (save_gad7_score db now sg).2) := by
  constructor
  · refine ⟨?_, rfl, ?_⟩
    · have p1 := List.perm_insertionSort tsGe
        (db.checklist.rows ++
          [(⟨db.checklist.seq + 1, sb, get_depression_level sb, fmt now⟩ : Entry)])
      have p2 := List.perm_append_singleton
        ({ id := db.checklist.seq + 1, score := sb,
           level := get_depression_level sb, timestamp := fmt now } : Entry)
        db.checklist.rows
      have p3 := (List.perm_insertionSort tsGe db.checklist.rows).symm
      exact p1.trans (p2.trans (p3.cons _))
    · intro e he
      have hm : e ∈ db.checklist.rows := (List.mem_insertionSort tsGe).mp he
      have h1 := hb e hm
      have h2 : (save_score db now sb).2 = db.checklist.seq + 1 := rfl
      omega
  · refine ⟨?_, rfl, ?_⟩
    · have p1 := List.perm_insertionSort tsGe
        (db.gad7.rows ++
          [(⟨db.gad7.seq + 1, sg, get_anxiety_level sg, fmt now⟩ : Entry)])
      have p2 := List.perm_append_singleton
        ({ id := db.gad7.seq + 1, score := sg,
           level := get_anxiety_level sg, timestamp := fmt now } : Entry)
        db.gad7.rows
      have p3 := (List.perm_insertionSort tsGe db.gad7.rows).symm
      exact p1.trans (p2.trans (p3.cons _))
    · intro e he
      have hm : e ∈ db.gad7.rows := (List.mem_insertionSort tsGe).mp he
      have h1 := hg e hm
      have h2 : (save_gad7_score db now sg).2 = db.gad7.seq + 1 := rfl
      omega

/-- C8 witness: saving into the empty database and listing. -/
theorem save_then_list_roundtrip_witness :
    (List.Perm
      (get_all_entries (save_score ((⟨0, []⟩, ⟨0, []⟩) : DB) ⟨2024, 1, 1, 0, 0, 0⟩ 30).1)
      ({ id := 1, score := 30, level := get_depression_level 30,
         timestamp := fmt ⟨2024, 1, 1, 0, 0, 0⟩ } ::
        get_all_entries ((⟨0, []⟩, ⟨0, []⟩) : DB)) ∧
     (save_score ((⟨0, []⟩, ⟨0, []⟩) : DB) ⟨2024, 1, 1, 0, 0, 0⟩ 30).2 = 1 ∧
     ∀ e ∈ get_all_entries ((⟨0, []⟩, ⟨0, []⟩) : DB),
       e.id < (save_score ((⟨0, []⟩, ⟨0, []⟩) : DB) ⟨2024, 1, 1, 0, 0, 0⟩ 30).2) ∧
    (List.Perm
      (get_all_gad7_entries
        (save_gad7_score ((⟨0, []⟩, ⟨0, []⟩) : DB) ⟨2024, 1, 1, 0, 0, 0⟩ 10).1)
      ({ id := 1, score := 10, level := get_anxiety_level 10,
         timestamp := fmt ⟨2024, 1, 1, 0, 0, 0⟩ } ::
        get_all_gad7_entries ((⟨0, []⟩, ⟨0, []⟩) : DB)) ∧
     (save_gad7_score ((⟨0, []⟩, ⟨0, []⟩) : DB) ⟨2024, 1, 1, 0, 0, 0⟩ 10).2 = 1 ∧
     ∀ e ∈ get_all_gad7_entries ((⟨0, []⟩, ⟨0, []⟩) : DB),
       e.id < (save_gad7_score ((⟨0, []⟩, ⟨0, []⟩) : DB) ⟨2024, 1, 1, 0, 0, 0⟩ 10).2) :=
  save_then_list_roundtrip ((⟨0, []⟩, ⟨0, []⟩) : DB) ⟨2024, 1, 1, 0, 0, 0⟩ 30 10
    (by intro e he; exact absurd he (List.not_mem_nil e))
    (by intro e he; exact absurd he (List.not_mem_nil e))

/-- C9: saving recomputes the category from the score, so the invariant
"every persisted entry's category is the classifier of its score" is
preserved by both save operations for any integer score, no validation; in
particular saving the out-of-range scores 101 / -1 persists entries whose
category is the sentinel "Invalid score". -/
theorem persisted_category_invariant (db : DB) (now : DateTime) (s : Int)
    (hb : ∀ e ∈ db.checklist.rows, e.level = get_depression_level e.score)
    (hg : ∀ e ∈ db.gad7.rows, e.level = get_anxiety_level e.score) :
    (∀ e ∈ (save_score db now s).1.checklist.rows,
      e.level = get_depression_level e.score) ∧
    (∀ e ∈ (save_gad7_score db now s).1.gad7.rows,
      e.level = get_anxiety_level e.score) ∧
    (∃ e ∈ (save_score db now 101).1.checklist.rows,
      e.score = 101 ∧ e.level = "Invalid score") ∧
    (∃ e ∈ (save_gad7_score db now (-1)).1.gad7.rows,
      e.score = -1 ∧ e.level = "Invalid score") := by
  refine ⟨?_, ?_, ?_, ?_⟩
  · intro e he
    rcases List.mem_append.mp he with h | h
    · exact hb e h
    · rw [List.mem_singleton] at h
      subst h
      rfl
  · intro e he
    rcases List.mem_append.mp he with h | h
    · exact hg e h
    · rw [List.mem_singleton] at h
      subst h
      rfl
  · refine ⟨(⟨db.checklist.seq + 1, 101, get_depression_level 101, fmt now⟩ : Entry),
      ?_, rfl, by show get_depression_level 101 = "Invalid score"; decide⟩
    exact List.mem_append_right _ (List.mem_singleton_self _)
  · refine ⟨(⟨db.gad7.seq + 1, -1, get_anxiety_level (-1), fmt now⟩ : Entry),
      ?_, rfl, by show get_anxiety_level (-1) = "Invalid score"; decide⟩
    exact List.mem_append_right _ (List.mem_singleton_self _)

/-- C9 witness: the invariant on the empty database, and the concrete
out-of-range entries. -/
theorem persisted_category_invariant_witness :
    (∀ e ∈ (save_score ((⟨0, []⟩, ⟨0, []⟩) : DB) ⟨2024, 1, 1, 0, 0, 0⟩ 7).1.checklist.rows,
      e.level = get_depression_level e.score) ∧
    (∃ e ∈ (save_score ((⟨0, []⟩, ⟨0, []⟩) : DB) ⟨2024, 1, 1, 0, 0, 0⟩ 101).1.checklist.rows,
      e.score = 101 ∧ e.level = "Invalid score") := by
  have h := persisted_category_invariant ((⟨0, []⟩, ⟨0, []⟩) : DB)
    ⟨2024, 1, 1, 0, 0, 0⟩ 7 (by intro e he; exact absurd he (List.not_mem_nil e))
    (by intro e he; exact absurd he (List.not_mem_nil e))
  exact ⟨h.1, h.2.2.1⟩

theorem ordering_then_assoc (a b c : Ordering) :
    (a.then b).then c = a.then (b.then c) := by
  cases a <;> rfl

theorem ordering_swap_then (a b : Ordering) :
    (a.then b).swap = a.swap.then b.swap := by
  cases a <;> rfl

theorem nat_compare_congr {a b c d : Nat} (h1 : a < b ↔ c < d)
    (h2 : b < a ↔ d < c) : compare a b = compare c d := by
  rcases Nat.lt_trichotomy a b with h | h | h
  · rw [Nat.compare_eq_lt.2 h, Eq.symm (Nat.compare_eq_lt.2 (h1.mp h))]
  · have hcd : c = d := by
      have := h1
      have := h2
      omega
    rw [Nat.compare_eq_eq.2 h, Eq.symm (Nat.compare_eq_eq.2 hcd)]
  · rw [Nat.compare_eq_gt.2 h, Eq.symm (Nat.compare_eq_gt.2 (h2.mp h))]

theorem nat_compare_swap (a b : Nat) : compare b a = (compare a b).swap := by
  rcases Nat.lt_trichotomy a b with h | h | h
  · rw [Nat.compare_eq_lt.2 h, Nat.compare_eq_gt.2 h]
    rfl
  · subst h
    rw [Nat.compare_eq_eq.2 rfl]
    rfl
  · rw [Nat.compare_eq_gt.2 h, Nat.compare_eq_lt.2 h]
    rfl

theorem compare_mul_add {p : Nat} (hp : 0 < p) (a b r1 r2 : Nat)
    (h1 : r1 < p) (h2 : r2 < p) :
    compare (a * p + r1) (b * p + r2) = (compare a b).then (compare r1 r2) := by
  rcases Nat.lt_trichotomy a b with h | h | h
  · have hab : a * p + r1 < b * p + r2 := by
      have hstep : (a + 1) * p ≤ b * p := Nat.mul_le_mul_right p h
      have : a * p + r1 < (a + 1) * p := by
        rw [Nat.succ_mul]
        omega
      omega
    rw [Nat.compare_eq_lt.2 hab, Nat.compare_eq_lt.2 h]
    rfl
  · subst h
    have : compare (a * p + r1) (a * p + r2) = compare r1 r2 :=
      nat_compare_congr (by omega) (by omega)
    rw [this, Nat.compare_eq_eq.2 rfl]
    rfl
  · have hab : b * p + r2 < a * p + r1 := by
      have hstep : (b + 1) * p ≤ a * p := Nat.mul_le_mul_right p h
      have : b * p + r2 < (b + 1) * p := by
        rw [Nat.succ_mul]
        omega
      omega
    rw [Nat.compare_eq_gt.2 hab, Nat.compare_eq_gt.2 h]
    rfl

theorem padDigits_length (w n : Nat) : (padDigits w n).length = w := by
  induction w generalizing n with
  | zero => rfl
  | succ w ih => simp [padDigits, ih]

theorem digitsCodes_length (w n : Nat) : (digitsCodes w n).length = w := by
  simp [digitsCodes, padDigits_length]

theorem lexCmp_append {xs ys : List Nat} (xs' ys' : List Nat)
    (h : xs.length = ys.length) :
    lexCmp (xs ++ xs') (ys ++ ys') = (lexCmp xs ys).then (lexCmp xs' ys') := by
  induction xs generalizing ys with
  | nil =>
    cases ys with
    | nil => rfl
    | cons y yt => simp at h
  | cons x xt ih =>
    cases ys with
    | nil => simp at h
    | cons y yt =>
      simp only [List.length_cons, Nat.succ_inj] at h
      rw [List.cons_append, List.cons_append]
      show (compare x y).then (lexCmp (xt ++ xs') (yt ++ ys')) =
        ((compare x y).then (lexCmp xt yt)).then (lexCmp xs' ys')
      rw [ih h, ordering_then_assoc]

theorem lexCmp_map_add (k : Nat) (xs ys : List Nat) :
    lexCmp (xs.map (· + k)) (ys.map (· + k)) = lexCmp xs ys := by
  induction xs generalizing ys with
  | nil => cases ys <;> rfl
  | cons x xt ih =>
    cases ys with
    | nil => rfl
    | cons y yt =>
      simp only [List.map_cons, lexCmp, ih yt]
      have : compare (x + k) (y + k) = compare x y :=
        nat_compare_congr (by omega) (by omega)
      rw [this]

theorem padCmp (w : Nat) {n m : Nat} (hn : n < 10 ^ w) (hm : m < 10 ^ w) :
    lexCmp (padDigits w n) (padDigits w m) = compare n m := by
  induction w generalizing n m with
  | zero =>
    have hn0 : n = 0 := by omega
    have hm0 : m = 0 := by omega
    subst hn0
    subst hm0
    rfl
  | succ w ih =>
    have hp : 0 < 10 ^ w := Nat.pos_pow_of_pos w (by norm_num)
    have hdn : n / 10 ^ w < 10 := Nat.div_lt_of_lt_mul (by
      rw [pow_succ] at hn
      omega)
    have hdm : m / 10 ^ w < 10 := Nat.div_lt_of_lt_mul (by
      rw [pow_succ] at hm
      omega)
    simp only [padDigits, lexCmp]
    rw [ih (Nat.mod_lt n hp) (Nat.mod_lt m hp)]
    have hne : n = (n / 10 ^ w) * 10 ^ w + n % 10 ^ w := by
      rw [Nat.mul_comm]
      exact (Nat.div_add_mod n (10 ^ w)).symm
    have hme : m = (m / 10 ^ w) * 10 ^ w + m % 10 ^ w := by
      rw [Nat.mul_comm]
      exact (Nat.div_add_mod m (10 ^ w)).symm
    conv_rhs => rw [hne, hme]
    rw [compare_mul_add hp _ _ _ _ (Nat.mod_lt n hp) (Nat.mod_lt m hp)]

theorem digitsCmp (w : Nat) {n m : Nat} (hn : n < 10 ^ w) (hm : m < 10 ^ w) :
    lexCmp (digitsCodes w n) (digitsCodes w m) = compare n m := by
  rw [digitsCodes, digitsCodes, lexCmp_map_add, padCmp w hn hm]

theorem lexCmp_sep (c : Nat) (r1 r2 : List Nat) :
    lexCmp (c :: r1) (c :: r2) = lexCmp r1 r2 := by
  simp only [lexCmp, Nat.compare_eq_eq.2 (rfl : c = c)]
  rfl

theorem lexCmp_chunk (w : Nat) {n m : Nat} (c : Nat) (r1 r2 : List Nat)
    (hn : n < 10 ^ w) (hm : m < 10 ^ w) :
    lexCmp (digitsCodes w n ++ (c :: r1)) (digitsCodes w m ++ (c :: r2)) =
      (compare n m).then (lexCmp r1 r2) := by
  rw [lexCmp_append _ _ (by rw [digitsCodes_length, digitsCodes_length]),
    digitsCmp w hn hm, lexCmp_sep]

theorem dtCmp_fields (d1 d2 : DateTime) (h1 : validDT d1) (h2 : validDT d2) :
    dtCmp d1 d2 =
      (compare d1.year d2.year).then ((compare d1.month d2.month).then
        ((compare d1.day d2.day).then ((compare d1.hour d2.hour).then
          ((compare d1.minute d2.minute).then
            (compare d1.second d2.second))))) := by
  obtain ⟨ha1, ha2, ha3, ha4, ha5, ha6, ha7, ha8, ha9⟩ := h1
  obtain ⟨hb1, hb2, hb3, hb4, hb5, hb6, hb7, hb8, hb9⟩ := h2
  unfold dtCmp dtKey
  rw [compare_mul_add (by norm_num) _ _ _ _ (by omega) (by omega)]
  rw [compare_mul_add (by norm_num) _ _ _ _ (by omega) (by omega)]
  rw [compare_mul_add (by norm_num) _ _ _ _ (by omega) (by omega)]
  rw [compare_mul_add (by norm_num) _ _ _ _ (by omega) (by omega)]
  rw [compare_mul_add (by norm_num) _ _ _ _ (by omega) (by omega)]
  simp only [ordering_then_assoc]

theorem fmt_cmp {d1 d2 : DateTime} (h1 : validDT d1) (h2 : validDT d2) :
    lexCmp (fmt d1) (fmt d2) = dtCmp d1 d2 := by
  have hv1 := h1
  have hv2 := h2
  obtain ⟨ha1, ha2, ha3, ha4, ha5, ha6, ha7, ha8, ha9⟩ := hv1
  obtain ⟨hb1, hb2, hb3, hb4, hb5, hb6, hb7, hb8, hb9⟩ := hv2
  unfold fmt
  rw [lexCmp_chunk 4 45 _ _ (by omega) (by omega)]
  rw [lexCmp_chunk 2 45 _ _ (by omega) (by omega)]
  rw [lexCmp_chunk 2 32 _ _ (by omega) (by omega)]
  rw [lexCmp_chunk 2 58 _ _ (by omega) (by omega)]
  rw [lexCmp_chunk 2 58 _ _ (by omega) (by omega)]
  rw [digitsCmp 2 (by omega) (by omega)]
  rw [dtCmp_fields d1 d2 h1 h2]

theorem digitsCodes_succ (w n : Nat) :
    digitsCodes (w + 1) n = (n / 10 ^ w + 48) :: digitsCodes w (n % 10 ^ w) := by
  simp [digitsCodes, padDigits]

theorem readDigits_spec (w : Nat) (acc : Nat) {n : Nat} (rest : List Nat)
    (hn : n < 10 ^ w) :
    readDigits w acc (digitsCodes w n ++ rest) =
      some (acc * 10 ^ w + n, rest) := by
  induction w generalizing acc n with
  | zero =>
    have h0 : n = 0 := by omega
    subst h0
    simp [digitsCodes, padDigits, readDigits]
  | succ w ih =>
    have hp : 0 < 10 ^ w := Nat.pos_pow_of_pos w (by norm_num)
    have hdig : n / 10 ^ w ≤ 9 := by
      have h10 : n < 10 ^ w * 10 := by
        rw [pow_succ] at hn
        exact hn
      have := Nat.div_lt_of_lt_mul h10
      omega
    rw [digitsCodes_succ, List.cons_append]
    show (if 48 ≤ n / 10 ^ w + 48 ∧ n / 10 ^ w + 48 ≤ 57 then
      readDigits w (acc * 10 + (n / 10 ^ w + 48 - 48))
        (digitsCodes w (n % 10 ^ w) ++ rest) else none) = _
    have hcond : 48 ≤ n / 10 ^ w + 48 ∧ n / 10 ^ w + 48 ≤ 57 := by
      revert hdig
      generalize n / 10 ^ w = q
      intro hdig
      omega
    rw [if_pos hcond]
    have hsimp : n / 10 ^ w + 48 - 48 = n / 10 ^ w := by simp
    rw [hsimp, ih _ (Nat.mod_lt n hp)]
    have hdm : (n / 10 ^ w) * 10 ^ w + n % 10 ^ w = n := by
      rw [Nat.mul_comm]
      exact Nat.div_add_mod n _
    have harith : (acc * 10 + n / 10 ^ w) * 10 ^ w + n % 10 ^ w =
        acc * 10 ^ (w + 1) + n := by
      rw [pow_succ]
      calc (acc * 10 + n / 10 ^ w) * 10 ^ w + n % 10 ^ w
          = acc * (10 ^ w * 10) + ((n / 10 ^ w) * 10 ^ w + n % 10 ^ w) := by ring
        _ = acc * (10 ^ w * 10) + n := by rw [hdm]
    rw [harith]

theorem readDigits_all (w acc : Nat) {n : Nat} (hn : n < 10 ^ w) :
    readDigits w acc (digitsCodes w n) = some (acc * 10 ^ w + n, []) := by
  have h := readDigits_spec w acc ([] : List Nat) hn
  rwa [List.append_nil] at h

theorem parseTS_fmt {d : DateTime} (h : validDT d) : parseTS (fmt d) = some d := by
  obtain ⟨ha1, ha2, ha3, ha4, ha5, ha6, ha7, ha8, ha9⟩ := h
  unfold fmt parseTS
  simp only [Option.bind_eq_bind, Option.some_bind',
    @readDigits_spec 4 0 d.year _ (by omega),
    @readDigits_spec 2 0 d.month _ (by omega),
    @readDigits_spec 2 0 d.day _ (by omega),
    @readDigits_spec 2 0 d.hour _ (by omega),
    @readDigits_spec 2 0 d.minute _ (by omega),
    @readDigits_all 2 0 d.second (by omega),
    expectCode, Nat.zero_mul, Nat.zero_add, if_true]

theorem lexCmp_swap (xs ys : List Nat) : lexCmp ys xs = (lexCmp xs ys).swap := by
  induction xs generalizing ys with
  | nil => cases ys <;> rfl
  | cons x xt ih =>
    cases ys with
    | nil => rfl
    | cons y yt =>
      simp only [lexCmp, ih yt, nat_compare_swap x y, ordering_swap_then]

theorem lexCmp_eq_iff (xs ys : List Nat) :
    lexCmp xs ys = Ordering.eq ↔ xs = ys := by
  induction xs generalizing ys with
  | nil =>
    cases ys with
    | nil => simp [lexCmp]
    | cons y yt => simp [lexCmp]
  | cons x xt ih =>
    cases ys with
    | nil => simp [lexCmp]
    | cons y yt =>
      simp only [lexCmp]
      constructor
      · intro h
        have hx : compare x y = Ordering.eq := by
          cases hc : compare x y <;> rw [hc] at h <;>
            first | rfl | exact Ordering.noConfusion h
        have hxy : x = y := Nat.compare_eq_eq.mp hx
        rw [hx] at h
        have : xt = yt := (ih yt).mp h
        rw [hxy, this]
      · intro h
        injection h with h1 h2
        rw [h1, Nat.compare_eq_eq.2 rfl]
        exact (ih yt).mpr h2

theorem lexCmp_trans_lt {xs ys zs : List Nat}
    (h1 : lexCmp xs ys = Ordering.lt) (h2 : lexCmp ys zs = Ordering.lt) :
    lexCmp xs zs = Ordering.lt := by
  induction xs generalizing ys zs with
  | nil =>
    cases ys with
    | nil => exact Ordering.noConfusion h1
    | cons y yt =>
      cases zs with
      | nil => exact Ordering.noConfusion h2
      | cons z zt => rfl
  | cons x xt ih =>
    cases ys with
    | nil => exact Ordering.noConfusion h1
    | cons y yt =>
      cases zs with
      | nil => exact Ordering.noConfusion h2
      | cons z zt =>
        simp only [lexCmp] at h1 h2 ⊢
        rcases hxy : compare x y with _ | _ | _
        all_goals rw [hxy] at h1
        case lt =>
          have hxy2 : x < y := Nat.compare_eq_lt.mp hxy
          rcases hyz : compare y z with _ | _ | _
          all_goals rw [hyz] at h2
          case lt =>
            have hxz : x < z := lt_trans hxy2 (Nat.compare_eq_lt.mp hyz)
            rw [Nat.compare_eq_lt.2 hxz]
            rfl
          case eq =>
            have hxz : x < z := Nat.compare_eq_eq.mp hyz ▸ hxy2
            rw [Nat.compare_eq_lt.2 hxz]
            rfl
          case gt => exact Ordering.noConfusion h2
        case eq =>
          have hxy2 : x = y := Nat.compare_eq_eq.mp hxy
          subst hxy2
          rcases hyz : compare x z with _ | _ | _
          all_goals rw [hyz] at h2
          case lt => rfl
          case eq =>
            show Ordering.eq.then (lexCmp xt zt) = Ordering.lt
            show lexCmp xt zt = Ordering.lt
            exact ih h1 h2
          case gt => exact Ordering.noConfusion h2
        case gt => exact Ordering.noConfusion h1

theorem fmt_length (d : DateTime) : (fmt d).length = 19 := by
  simp [fmt, digitsCodes_length]

theorem tsGe_total (a b : Entry) : tsGe a b ∨ tsGe b a := by
  by_cases h : lexCmp a.timestamp b.timestamp = Ordering.lt
  · right
    unfold tsGe
    rw [lexCmp_swap, h]
    decide
  · left
    exact h

theorem tsGe_trans (a b c : Entry) (h1 : tsGe a b) (h2 : tsGe b c) :
    tsGe a c := by
  unfold tsGe at h1 h2 ⊢
  intro hac
  rcases hab : lexCmp a.timestamp b.timestamp with _ | _ | _
  · exact h1 hab
  · have : a.timestamp = b.timestamp := (lexCmp_eq_iff _ _).mp hab
    rw [this] at hac
    exact h2 hac
  · have hba : lexCmp b.timestamp a.timestamp = Ordering.lt := by
      rw [lexCmp_swap, hab]
      rfl
    exact h2 (lexCmp_trans_lt hba hac)

theorem parsedKey_fmt {e : Entry} {d : DateTime} (hv : validDT d)
    (ht : e.timestamp = fmt d) : parsedKey e = dtKey d := by
  unfold parsedKey
  rw [ht, parseTS_fmt hv]

/-- C10: timestamps persisted by the save operations are the fixed-width
19-byte strftime rendering of a valid datetime, and this invariant is
preserved by every save; on such strings byte-wise lexicographic
comparison coincides with chronological comparison, so the ORDER BY
timestamp DESC listings are chronologically newest-first, and strptime
succeeds on every stored timestamp. -/
theorem timestamp_format_and_order (db : DB) (now d1 d2 : DateTime) (s : Int)
    (hnow : validDT now) (h1 : validDT d1) (h2 : validDT d2)
    (hall : ∀ e ∈ db.checklist.rows, ∃ d, validDT d ∧ e.timestamp = fmt d)
    (hallg : ∀ e ∈ db.gad7.rows, ∃ d, validDT d ∧ e.timestamp = fmt d) :
    ((fmt now).length = 19 ∧
     (∀ e ∈ (save_score db now s).1.checklist.rows,
       ∃ d, validDT d ∧ e.timestamp = fmt d) ∧
     (∀ e ∈ (save_gad7_score db now s).1.gad7.rows,
       ∃ d, validDT d ∧ e.timestamp = fmt d)) ∧
    lexCmp (fmt d1) (fmt d2) = dtCmp d1 d2 ∧
    (List.Pairwise (fun a b => parsedKey b ≤ parsedKey a) (get_all_entries db) ∧
     List.Pairwise (fun a b => parsedKey b ≤ parsedKey a) (get_all_gad7_entries db)) ∧
    ((∀ e ∈ get_all_entries db, ∃ d, parseTS e.timestamp = some d) ∧
     (∀ e ∈ get_all_gad7_entries db, ∃ d, parseTS e.timestamp = some d)) := by
  haveI hTot : IsTotal Entry tsGe := ⟨tsGe_total⟩
  haveI hTrans : IsTrans Entry tsGe := ⟨tsGe_trans⟩
  refine ⟨⟨fmt_length now, ?_, ?_⟩, fmt_cmp h1 h2, ⟨?_, ?_⟩, ?_, ?_⟩
  · intro e he
    rcases List.mem_append.mp he with h | h
    · exact hall e h
    · rw [List.mem_singleton] at h
      subst h
      exact ⟨now, hnow, rfl⟩
  · intro e he
    rcases List.mem_append.mp he with h | h
    · exact hallg e h
    · rw [List.mem_singleton] at h
      subst h
      exact ⟨now, hnow, rfl⟩
  · have hs := List.sorted_insertionSort tsGe db.checklist.rows
    refine List.Pairwise.imp_of_mem ?_ hs
    intro a b ha hb hab
    obtain ⟨da, hda, hta⟩ := hall a ((List.mem_insertionSort tsGe).mp ha)
    obtain ⟨db', hdb, htb⟩ := hall b ((List.mem_insertionSort tsGe).mp hb)
    rw [parsedKey_fmt hda hta, parsedKey_fmt hdb htb]
    unfold tsGe at hab
    rw [hta, htb, fmt_cmp hda hdb] at hab
    unfold dtCmp at hab
    by_contra hcon
    exact hab (Nat.compare_eq_lt.2 (by omega))
  · have hs := List.sorted_insertionSort tsGe db.gad7.rows
    refine List.Pairwise.imp_of_mem ?_ hs
    intro a b ha hb hab
    obtain ⟨da, hda, hta⟩ := hallg a ((List.mem_insertionSort tsGe).mp ha)
    obtain ⟨db', hdb, htb⟩ := hallg b ((List.mem_insertionSort tsGe).mp hb)
    rw [parsedKey_fmt hda hta, parsedKey_fmt hdb htb]
    unfold tsGe at hab
    rw [hta, htb, fmt_cmp hda hdb] at hab
    unfold dtCmp at hab
    by_contra hcon
    exact hab (Nat.compare_eq_lt.2 (by omega))
  · intro e he
    obtain ⟨d, hd, ht⟩ := hall e ((List.mem_insertionSort tsGe).mp he)
    exact ⟨d, by rw [ht]; exact parseTS_fmt hd⟩
  · intro e he
    obtain ⟨d, hd, ht⟩ := hallg e ((List.mem_insertionSort tsGe).mp he)
    exact ⟨d, by rw [ht]; exact parseTS_fmt hd⟩

/-- C10 witness: a concrete valid datetime and a save into the empty
database. -/
theorem timestamp_format_and_order_witness :
    (fmt ⟨2024, 1, 1, 0, 0, 0⟩).length = 19 ∧
    lexCmp (fmt ⟨2024, 1, 1, 0, 0, 0⟩) (fmt ⟨2024, 1, 1, 0, 0, 0⟩) =
      dtCmp ⟨2024, 1, 1, 0, 0, 0⟩ ⟨2024, 1, 1, 0, 0, 0⟩ ∧
    (∀ e ∈ (save_score ((⟨0, []⟩, ⟨0, []⟩) : DB) ⟨2024, 1, 1, 0, 0, 0⟩ 30).1.checklist.rows,
      ∃ d, validDT d ∧ e.timestamp = fmt d) := by
  have h := timestamp_format_and_order ((⟨0, []⟩, ⟨0, []⟩) : DB)
    ⟨2024, 1, 1, 0, 0, 0⟩ ⟨2024, 1, 1, 0, 0, 0⟩ ⟨2024, 1, 1, 0, 0, 0⟩ 30
    (by unfold validDT; norm_num) (by unfold validDT; norm_num)
    (by unfold validDT; norm_num)
    (by intro e he; exact absurd he (List.not_mem_nil e))
    (by intro e he; exact absurd he (List.not_mem_nil e))
  exact ⟨h.1.1, h.2.1, h.1.2.1⟩

/-- C6: the frontend time filter equals the spec's inclusive-window filter
on the parsed entries (so it retains exactly the entries with
start <= t <= end, inclusive both ends), its output is a sublist of its
input (order preserved, no re-sort), and an inverted window (end < start)
yields the empty sequence without error. -/
theorem update_graph_filter_refines (entries : List Entry)
    (start_date now : DateTime) (ps : List (Int × DateTime))
    (hparse : entries.mapM
      (fun e => (parseTS e.timestamp).map (fun d => (e.score, d))) = some ps) :
    update_graph_filter entries start_date now =
      some (applySpec ps start_date now) ∧
    (applySpec ps start_date now).Sublist ps ∧
    (dtKey now < dtKey start_date →
      update_graph_filter entries start_date now = some []) := by
  have hmain : update_graph_filter entries start_date now =
      some (applySpec ps start_date now) := by
    induction entries generalizing ps with
    | nil =>
      simp only [List.mapM_nil, pure, Option.some.injEq] at hparse
      subst hparse
      rfl
    | cons e es ih =>
      rw [List.mapM_cons] at hparse
      cases hp : parseTS e.timestamp with
      | none => simp [hp, Option.bind_eq_bind] at hparse
      | some d =>
        simp only [hp, Option.map_some', Option.bind_eq_bind, Option.some_bind,
          Option.bind_eq_some, Option.some.injEq] at hparse
        obtain ⟨bs, hbs, hcons⟩ := hparse
        rw [show (pure ((e.score, d) :: bs) : Option (List (Int × DateTime))) =
          some ((e.score, d) :: bs) from rfl, Option.some.injEq] at hcons
        subst hcons
        simp only [update_graph_filter, hp, ih bs hbs]
        by_cases hc : dtLe start_date d ∧ dtLe d now
        · simp [applySpec, List.filter_cons, hc]
        · simp [applySpec, List.filter_cons, hc]
  refine ⟨hmain, List.filter_sublist _, ?_⟩
  intro hinv
  rw [hmain]
  have : applySpec ps start_date now = [] := by
    apply List.filter_eq_nil_iff.mpr
    intro p hp
    simp only [decide_eq_true_eq, not_and]
    intro hA hB
    unfold dtLe at hA hB
    omega
  rw [this]

theorem filter_all_pass (now : DateTime) (l : List Entry)
    (h : ∀ e ∈ l, ∃ d, validDT d ∧ e.timestamp = fmt d ∧ dtLe d now) :
    update_graph_filter l datetime_min now =
      some (l.map (fun e => (e.score, parseD e))) := by
  induction l with
  | nil => rfl
  | cons e es ih =>
    obtain ⟨d, hv, ht, hle⟩ := h e (List.mem_cons_self e es)
    have hmin : dtLe datetime_min d := by
      obtain ⟨h1, h2, h3, h4, h5, h6, h7, h8, h9⟩ := hv
      unfold dtLe dtKey datetime_min
      simp only []
      omega
    have hparse : parseTS e.timestamp = some d := by
      rw [ht]
      exact parseTS_fmt hv
    have hpd : parseD e = d := by
      unfold parseD
      rw [hparse]
      rfl
    simp only [update_graph_filter, hparse,
      ih (fun x hx => h x (List.mem_cons_of_mem e hx)), List.map_cons, hpd]
    rw [if_pos ⟨hmin, hle⟩]

/-- C7: with the "All Time" preset the window is start = datetime.min,
end = now, and filtering the repository listing with it returns every
entry, in listing order (each entry paired with its parsed timestamp). -/
theorem all_time_filter_returns_all (db : DB) (now : DateTime)
    (hall : ∀ e ∈ db.checklist.rows,
      ∃ d, validDT d ∧ e.timestamp = fmt d ∧ dtLe d now) :
    update_graph_filter (get_all_entries db) datetime_min now =
      some ((get_all_entries db).map (fun e => (e.score, parseD e))) := by
  apply filter_all_pass
  intro e he
  exact hall e ((List.mem_insertionSort tsGe).mp he)

/-- C6 witness: a one-entry list against a concrete window. -/
theorem update_graph_filter_refines_witness :
    update_graph_filter
        [⟨1, 30, "Moderate depression", fmt ⟨2024, 6, 1, 12, 0, 0⟩⟩]
        ⟨2024, 1, 1, 0, 0, 0⟩ ⟨2025, 1, 1, 0, 0, 0⟩ =
      some (applySpec [(30, ⟨2024, 6, 1, 12, 0, 0⟩)]
        ⟨2024, 1, 1, 0, 0, 0⟩ ⟨2025, 1, 1, 0, 0, 0⟩) ∧
    (applySpec [(30, ⟨2024, 6, 1, 12, 0, 0⟩)]
      ⟨2024, 1, 1, 0, 0, 0⟩ ⟨2025, 1, 1, 0, 0, 0⟩).Sublist
        [(30, ⟨2024, 6, 1, 12, 0, 0⟩)] ∧
    (dtKey ⟨2025, 1, 1, 0, 0, 0⟩ < dtKey ⟨2024, 1, 1, 0, 0, 0⟩ →
      update_graph_filter
        [⟨1, 30, "Moderate depression", fmt ⟨2024, 6, 1, 12, 0, 0⟩⟩]
        ⟨2024, 1, 1, 0, 0, 0⟩ ⟨2025, 1, 1, 0, 0, 0⟩ = some []) :=
  update_graph_filter_refines _ _ _ _ (by rfl)

/-- C7 witness: a one-entry repository under the All Time window. -/
theorem all_time_filter_returns_all_witness :
    update_graph_filter
        (get_all_entries ((⟨1, [⟨1, 30, "Moderate depression",
          fmt ⟨2024, 6, 1, 12, 0, 0⟩⟩]⟩, ⟨0, []⟩) : DB))
        datetime_min ⟨2025, 1, 1, 0, 0, 0⟩ =
      some ((get_all_entries ((⟨1, [⟨1, 30, "Moderate depression",
          fmt ⟨2024, 6, 1, 12, 0, 0⟩⟩]⟩, ⟨0, []⟩) : DB)).map
        (fun e => (e.score, parseD e))) := by
  apply all_time_filter_returns_all
  intro e he
  have he2 : e ∈ [(⟨1, 30, "Moderate depression",
      fmt ⟨2024, 6, 1, 12, 0, 0⟩⟩ : Entry)] := he
  rw [List.mem_singleton] at he2
  subst he2
  exact ⟨⟨2024, 6, 1, 12, 0, 0⟩, by unfold validDT; norm_num, rfl,
    by unfold dtLe dtKey; norm_num⟩

end MentalHealth
